import Mathlib

/-!
Verification of the translatronx incremental translation core.

This file gives a shallow embedding, in Lean 4, of the change-detection and
validation core of the translatronx repository (ledger, planner,
manual-override detector, validation pipeline, placeholder extraction), and
proves the specification claims about it.

Modelling conventions:
* The SQLite ledger is modelled as a pair of finite-support maps, one per
  table actually read by the planner (`source_hashes` keyed by `key_path`,
  `sync_status` keyed by `(key_path, lang_code)`).  Timestamp columns
  (`updated_at`, `last_seen_run`) and the `run_history` table are real-time
  bookkeeping and are not modelled.
* JavaScript numbers are modelled as exact rationals (`Rat`).
* The SHA-256 `computeHash` function is modelled as an abstract parameter
  `hashFn : String → String`; none of the claims depend on its definition,
  only on it being a deterministic function of its input.
* JavaScript string falsiness quirks (`x || null` turning the empty string
  or 0 into null) are modelled explicitly where they occur.
-/

namespace Translatron

/-- The closed status enum of the `sync_status` table
(`status TEXT CHECK(status IN ('CLEAN','DIRTY','FAILED','MANUAL','SKIPPED'))`). -/
inductive SyncStatusType where
  | CLEAN
  | DIRTY
  | FAILED
  | MANUAL
  | SKIPPED
deriving DecidableEq, Repr

/-- A row of the `sync_status` table (src/ledger/index.ts, interface SyncStatus).
The `updated_at` timestamp column is not modelled. -/
structure SyncStatus where
  key_path : String
  lang_code : String
  target_hash : String
  status : SyncStatusType
  model_fingerprint : Option String
  prompt_version : Option Nat
deriving DecidableEq, Repr

/-- The ledger state (class translatronxLedger, src/ledger/index.ts):
`sourceHashes` is the `source_hashes` table restricted to its `value_hash`
column (the only column the planner reads; `context_sig` and `last_seen_run`
are write-only bookkeeping), `syncStatus` is the `sync_status` table keyed by
its primary key `(key_path, lang_code)`. -/
structure Ledger where
  sourceHashes : String → Option String
  syncStatus : String → String → Option SyncStatus

/-- `getSourceHash(keyPath)` (src/ledger/index.ts:72-78).
The source returns `row?.value_hash || null`: a stored empty-string hash is
falsy in JavaScript and is therefore returned as `null`. -/
def getSourceHash (l : Ledger) (keyPath : String) : Option String :=
  match l.sourceHashes keyPath with
  | some v => if v = "" then none else some v
  | none => none

/-- `getSyncStatus(keyPath, langCode)` (src/ledger/index.ts:99-105). -/
def getSyncStatus (l : Ledger) (keyPath langCode : String) : Option SyncStatus :=
  l.syncStatus keyPath langCode

/-- `updateSyncStatus(keyPath, langCode, targetHash, status, modelFingerprint?, promptVersion?)`
(src/ledger/index.ts:110-129): an upsert on the `(key_path, lang_code)`
primary key that replaces the whole row.  The source passes
`modelFingerprint || null` and `promptVersion || null` to the statement, so a
falsy empty-string fingerprint or zero prompt version is stored as NULL. -/
def updateSyncStatus (l : Ledger) (keyPath langCode targetHash : String)
    (status : SyncStatusType) (modelFingerprint : Option String)
    (promptVersion : Option Nat) : Ledger :=
  { l with syncStatus := fun k lc =>
      if k = keyPath ∧ lc = langCode then
        some { key_path := keyPath
               lang_code := langCode
               target_hash := targetHash
               status := status
               model_fingerprint := match modelFingerprint with
                 | some "" => none
                 | x => x
               prompt_version := match promptVersion with
                 | some 0 => none
                 | x => x }
      else l.syncStatus k lc }

/-- Target language definition (src/types/index.ts, interface TargetLanguage). -/
structure TargetLanguage where
  language : String
  shortCode : String
deriving DecidableEq, Repr

/-- A single translatable string (src/types/index.ts, interface SourceUnit). -/
structure SourceUnit where
  unitId : String
  keyPath : String
  sourceText : String
  sourceHash : String
  context : Option String
  placeholders : List String
  sourceFile : String
  schemaVersion : Nat
deriving DecidableEq, Repr

/-- A batch of source units (src/types/index.ts, interface TranslationBatch). -/
structure TranslationBatch where
  batchId : String
  sourceUnits : List SourceUnit
  targetLanguage : String
  deduplicationKey : String
deriving DecidableEq, Repr

/-- A translation plan (src/types/index.ts, interface TranslationPlan). -/
structure TranslationPlan where
  batches : List TranslationBatch
  totalUnits : Nat
  estimatedCost : Rat
deriving DecidableEq, Repr

/-- The per-unit inclusion test of `detectChanges` (src/planner/index.ts:44-73):
the body of the `for` loop, deciding whether `unit` is pushed onto
`needsTranslation` for target language `targetLang`. -/
def needsTranslation (ledger : Ledger) (targetLang : String) (unit : SourceUnit) : Bool :=
  -- Check if source hash has changed
  let storedHash := getSourceHash ledger unit.keyPath
  let sourceChanged := storedHash ≠ some unit.sourceHash
  -- Check sync status
  match getSyncStatus ledger unit.keyPath targetLang with
  | none =>
      -- New key - needs translation
      true
  | some syncStatus =>
      if syncStatus.status = .MANUAL then
        -- Manual override - skip unless forced
        false
      else if sourceChanged then
        -- Source changed - needs re-translation
        true
      else
        -- Previously failed or dirty - retry; else CLEAN and unchanged - skip
        decide (syncStatus.status = .FAILED ∨ syncStatus.status = .DIRTY)

/-- `detectChanges(sourceUnits, targetLang)` (src/planner/index.ts:44-73):
keeps, in order, the source units whose loop body pushes them. -/
def detectChanges (ledger : Ledger) (sourceUnits : List SourceUnit)
    (targetLang : String) : List SourceUnit :=
  sourceUnits.filter (needsTranslation ledger targetLang)

/-- The loop of `createBatches` (src/planner/index.ts:78-99), consuming
`batchSize` units per iteration; `i` is the running start offset of the
current slice and `fuel` bounds the recursion (the JavaScript loop runs while
`i < units.length`; with `batchSize ≥ 1` the fuel `units.length` is never
exhausted before the list is).  The `Date.now()` component of `batchId` is
real time and is not modelled; no claim concerns `batchId`. -/
def createBatchesAux (hashFn : String → String) (targetLang : String)
    (batchSize : Nat) : Nat → Nat → List SourceUnit → List TranslationBatch
  | 0, _, _ => []
  | _ + 1, _, [] => []
  | fuel + 1, i, u :: us =>
      let units := u :: us
      let batchUnits := units.take batchSize
      let batchId := "batch_" ++ targetLang ++ "_" ++ toString i
      -- Compute deduplication key from content
      let contentHash := hashFn (String.intercalate "_" (batchUnits.map (·.sourceHash)))
      { batchId := batchId
        sourceUnits := batchUnits
        targetLanguage := targetLang
        deduplicationKey := contentHash }
        :: createBatchesAux hashFn targetLang batchSize fuel (i + batchSize)
             (units.drop batchSize)

/-- `createBatches(units, targetLang, batchSize)` (src/planner/index.ts:78-99). -/
def createBatches (hashFn : String → String) (units : List SourceUnit)
    (targetLang : String) (batchSize : Nat) : List TranslationBatch :=
  createBatchesAux hashFn targetLang batchSize units.length 0 units

/-- `estimateCost(totalUnits)` (src/planner/index.ts:106-111):
100 tokens per unit, $0.01 per 1000 tokens. -/
def estimateCost (totalUnits : Nat) : Rat :=
  let tokensPerUnit : Nat := 100
  let totalTokens := totalUnits * tokensPerUnit
  ((totalTokens : Rat) / 1000) * (1 / 100)

/-- `createPlan(sourceUnits, targetLanguages)` (src/planner/index.ts:14-39):
for each target language run `detectChanges`, skip the language when nothing
needs translation, otherwise append its batches (batch size 20, the default)
and add its unit count to the total. -/
def createPlan (hashFn : String → String) (ledger : Ledger)
    (sourceUnits : List SourceUnit) (targetLanguages : List TargetLanguage) :
    TranslationPlan :=
  let res := targetLanguages.foldl (fun (acc : List TranslationBatch × Nat) lang =>
    let unitsNeedingTranslation := detectChanges ledger sourceUnits lang.shortCode
    if unitsNeedingTranslation.isEmpty then
      acc  -- No changes for this language
    else
      (acc.1 ++ createBatches hashFn unitsNeedingTranslation lang.shortCode 20,
       acc.2 + unitsNeedingTranslation.length)) ([], 0)
  { batches := res.1
    totalUnits := res.2
    estimatedCost := estimateCost res.2 }

/-- `ManualOverrideDetector.isManualOverride(keyPath, langCode, currentHash)`
(src/planner/index.ts:123-141). -/
def isManualOverride (ledger : Ledger) (keyPath langCode currentHash : String) : Bool :=
  match getSyncStatus ledger keyPath langCode with
  | none =>
      -- New translation, not an override
      false
  | some syncStatus =>
      -- If status is MANUAL, it has been manually overridden
      if syncStatus.status = .MANUAL then true
      -- If target hash does not match and status is CLEAN, it was manually edited
      else if syncStatus.status = .CLEAN ∧ syncStatus.target_hash ≠ currentHash then true
      else false

/-- `ManualOverrideDetector.markAsManualOverride(keyPath, langCode, targetHash)`
(src/planner/index.ts:146-148). -/
def markAsManualOverride (ledger : Ledger) (keyPath langCode targetHash : String) :
    Ledger :=
  updateSyncStatus ledger keyPath langCode targetHash .MANUAL none none

/-- The pair `(unit, langCode)` is included in a plan: some batch of the plan
for that language code carries the unit. -/
def planIncludes (plan : TranslationPlan) (unit : SourceUnit) (langCode : String) : Prop :=
  ∃ b ∈ plan.batches, b.targetLanguage = langCode ∧ unit ∈ b.sourceUnits

/-!
## Placeholder extraction (src/utils/hash.ts)

`extractPlaceholders` scans its input with five JavaScript global regexes and
collects the full matched substrings (`match[0]`) into a `Set`, then returns
`Array.from(set).sort()`.  Each regex is modelled by a `matchAt` function
giving the (greedy, leftmost) match anchored at the start of a character
list, together with the unconsumed remainder; `scanAux` models `matchAll`:
it tries the pattern at every position, emits each match and resumes
scanning right after it.  Every successful `matchAt` consumes at least one
character, so fuel equal to the input length is never exhausted early.
-/

/-- Anchored match of `/\{([^}]+)\}/`: `{`, a nonempty run of non-`}`
characters (greedy; it can never include `}`, so no backtracking arises),
then `}`. -/
def matchBraceAt : List Char → Option (List Char × List Char)
  | '{' :: rest =>
      match rest.takeWhile (· ≠ '}') with
      | [] => none
      | run =>
        match rest.dropWhile (· ≠ '}') with
        | '}' :: tail => some ('{' :: (run ++ ['}']), tail)
        | _ => none
  | _ => none

/-- Anchored match of `/\{\{([^}]+)\}\}/`. -/
def matchDoubleBraceAt : List Char → Option (List Char × List Char)
  | '{' :: '{' :: rest =>
      match rest.takeWhile (· ≠ '}') with
      | [] => none
      | run =>
        match rest.dropWhile (· ≠ '}') with
        | '}' :: '}' :: tail => some ('{' :: '{' :: (run ++ ['}', '}']), tail)
        | _ => none
  | _ => none

/-- Anchored match of `/%[sdif]/`. -/
def matchPercentAt : List Char → Option (List Char × List Char)
  | '%' :: c :: rest =>
      if c = 's' ∨ c = 'd' ∨ c = 'i' ∨ c = 'f' then some (['%', c], rest) else none
  | _ => none

/-- Anchored match of `/\$\{([^}]+)\}/`. -/
def matchDollarBraceAt : List Char → Option (List Char × List Char)
  | '$' :: '{' :: rest =>
      match rest.takeWhile (· ≠ '}') with
      | [] => none
      | run =>
        match rest.dropWhile (· ≠ '}') with
        | '}' :: tail => some ('$' :: '{' :: (run ++ ['}']), tail)
        | _ => none
  | _ => none

/-- Anchored match of `/\$\d+/` (JavaScript `\d` is exactly `[0-9]`,
matching `Char.isDigit`). -/
def matchDollarNumAt : List Char → Option (List Char × List Char)
  | '$' :: rest =>
      match rest.takeWhile (·.isDigit) with
      | [] => none
      | digits => some ('$' :: digits, rest.dropWhile (·.isDigit))
  | _ => none

/-- `text.matchAll(pattern)` for a global regex: try the pattern at each
position, after a match resume right after its end, otherwise advance one
character.  The fuel starts at the input length. -/
def scanAux (matchAt : List Char → Option (List Char × List Char)) :
    Nat → List Char → List String
  | 0, _ => []
  | _ + 1, [] => []
  | fuel + 1, c :: cs =>
      match matchAt (c :: cs) with
      | some (m, rest) => String.mk m :: scanAux matchAt fuel rest
      | none => scanAux matchAt fuel cs

/-- All matches of one pattern over a string, in scanning order. -/
def scanPattern (matchAt : List Char → Option (List Char × List Char))
    (text : String) : List String :=
  scanAux matchAt text.toList.length text.toList

/-- JavaScript `Set` insertion semantics: keep the first occurrence of each
element, in encounter order. -/
def dedupFirst : List String → List String
  | [] => []
  | x :: xs => x :: (dedupFirst xs).filter (fun y => y ≠ x)

/-- Executable lexicographic comparison of character lists (the Lean library
order on `String` is extensionally the same but opaque to kernel
reduction; `lexLe_iff` below proves the agreement). -/
def lexLe : List Char → List Char → Bool
  | [], _ => true
  | _ :: _, [] => false
  | a :: as, b :: bs => if a < b then true else if a = b then lexLe as bs else false

/-- The default `Array.prototype.sort` comparison: lexicographic by code
unit (code point here; they agree on the basic multilingual plane). -/
def strLe (a b : String) : Bool := lexLe a.toList b.toList

/-- `extractPlaceholders(text)` (src/utils/hash.ts:22-41): the union of the
matches of the five patterns, deduplicated (`Set`) and sorted
(`Array.from(placeholders).sort()`, default lexicographic comparison; the
sort is modelled by insertion sort, which returns the same sorted
arrangement of the duplicate-free input). -/
def extractPlaceholders (text : String) : List String :=
  let allMatches :=
    scanPattern matchBraceAt text ++
    scanPattern matchDoubleBraceAt text ++
    scanPattern matchPercentAt text ++
    scanPattern matchDollarBraceAt text ++
    scanPattern matchDollarNumAt text
  List.insertionSort (fun a b => strLe a b = true) (dedupFirst allMatches)

/-!
## Validation pipeline (src/validation/index.ts, class TranslationValidationPipeline)
-/

/-- Result from an LLM translation call (src/types/index.ts, interface
TranslationResult); the untyped `rawResponse` payload is not modelled. -/
structure TranslationResult where
  unitId : String
  translatedText : String
  confidence : Option Rat
deriving DecidableEq, Repr

/-- src/types/index.ts, interface ValidationError. -/
structure ValidationError where
  type : String
  message : String
  field : Option String
deriving DecidableEq, Repr

/-- src/types/index.ts, interface ValidationWarning. -/
structure ValidationWarning where
  type : String
  message : String
  field : Option String
deriving DecidableEq, Repr

/-- src/types/index.ts, interface ValidationResult. -/
structure ValidationResult where
  isValid : Bool
  errors : List ValidationError
  warnings : List ValidationWarning
  confidence : Rat
deriving DecidableEq, Repr

/-- The constructor configuration of TranslationValidationPipeline; every
field is optional in the source. -/
structure ValidationConfig where
  preservePlaceholders : Option Bool
  maxLengthRatio : Option Rat
  preventSourceLeakage : Option Bool
  brandNames : Option (List String)
deriving DecidableEq, Repr

/-- The `MISSING_PLACEHOLDER` error entry pushed for placeholder `p`. -/
def mkMissingPlaceholderError (p : String) : ValidationError :=
  { type := "MISSING_PLACEHOLDER", message := "Missing placeholder: " ++ p, field := some p }

/-- The `EXTRA_PLACEHOLDER` error entry pushed for placeholder `p`. -/
def mkExtraPlaceholderError (p : String) : ValidationError :=
  { type := "EXTRA_PLACEHOLDER", message := "Unexpected placeholder: " ++ p, field := some p }

/-- `validatePlaceholders(sourceUnit, result)`: one `MISSING_PLACEHOLDER`
error per element of `new Set(sourceUnit.placeholders)` absent from the
translation's extracted placeholder set, then one `EXTRA_PLACEHOLDER` error
per extracted placeholder absent from the source set.  `Set` iteration order
is first-occurrence insertion order, i.e. `dedupFirst`; `extractPlaceholders`
output is already duplicate-free. -/
def validatePlaceholders (sourceUnit : SourceUnit) (result : TranslationResult) :
    List ValidationError :=
  let sourcePlaceholders := dedupFirst sourceUnit.placeholders
  let translatedPlaceholders := extractPlaceholders result.translatedText
  (sourcePlaceholders.filter
      (fun p => ! translatedPlaceholders.contains p)).map mkMissingPlaceholderError
    ++ (translatedPlaceholders.filter
      (fun p => ! sourcePlaceholders.contains p)).map mkExtraPlaceholderError

/-- `validateSemantics(sourceUnit, result)`.
`const maxLengthRatio = this.config.maxLengthRatio || 3` maps a falsy stored
ratio (0) to 3.  JavaScript computes `ratio = translatedLength/sourceLength`
in floating point (`Infinity` when `sourceLength` is 0 and
`translatedLength` > 0, `NaN` — every comparison false — when both are 0);
over nonnegative lengths `ratio > maxLengthRatio` is extensionally
`translatedLength > maxLengthRatio * sourceLength`, which avoids the Lean
convention `x / 0 = 0`.  The warning message interpolates the computed ratio
in the source; the numeric `toFixed` formatting is not reproduced.
String `.length` counts UTF-16 code units in JavaScript and code points
here; they agree on the basic multilingual plane. -/
def validateSemantics (config : ValidationConfig) (sourceUnit : SourceUnit)
    (result : TranslationResult) : List ValidationWarning :=
  let maxLengthRatio : Rat :=
    match config.maxLengthRatio with
    | some r => if r = 0 then 3 else r
    | none => 3
  let sourceLength := sourceUnit.sourceText.length
  let translatedLength := result.translatedText.length
  if (translatedLength : Rat) > maxLengthRatio * (sourceLength : Rat) then
    [{ type := "LENGTH_RATIO_EXCEEDED"
       message := "Translation is longer than source", field := none }]
  else []

/-- JavaScript `String.prototype.trim`: strip leading and trailing
whitespace.  (`String.trim` from the Lean library is extensionally the same
on ASCII input but is opaque to kernel reduction, so the embedding uses this
executable form; JavaScript also strips a few exotic Unicode spaces, which
do not occur in the claims.) -/
def jsTrim (s : String) : String :=
  String.mk (((s.toList.dropWhile Char.isWhitespace).reverse.dropWhile
    Char.isWhitespace).reverse)

/-- JavaScript `.split(/\s+/)` on a trimmed string: the nonempty maximal
runs of non-whitespace characters.  (On the empty string JavaScript returns
`[""]` while this returns `[]`; `detectSourceLeakage` reaches that case only
with `matchCount = 0`, where both conventions yield the same `false`
verdict.) -/
def splitWhitespace (s : String) : List String :=
  (s.split (fun c => c.isWhitespace)).filter (fun t => t ≠ "")

/-- `detectSourceLeakage(sourceUnit, result)`: flag when the lowercased,
trimmed texts are identical, or when more than 80% of the distinct source
words also occur in the translation's word set.  `String.toLower` matches
JavaScript `toLowerCase` on ASCII text. -/
def detectSourceLeakage (sourceUnit : SourceUnit) (result : TranslationResult) : Bool :=
  let normalizedSource := jsTrim sourceUnit.sourceText.toLower
  let normalizedTranslation := jsTrim result.translatedText.toLower
  if normalizedSource = normalizedTranslation then true
  else
    let sourceWords := dedupFirst (splitWhitespace normalizedSource)
    let translationWords := splitWhitespace normalizedTranslation
    let matchCount := (sourceWords.filter (fun w => translationWords.contains w)).length
    decide ((matchCount : Rat) / (sourceWords.length : Rat) > 8 / 10)

/-- Substring test, JavaScript `haystack.includes(needle)`. -/
def strIncludes (s sub : String) : Bool :=
  s.toList.tails.any (fun t => sub.toList.isPrefixOf t)

/-- `validateBrandNames(sourceUnit, result)`: a `MISSING_BRAND_NAME` warning
for each configured brand name that occurs literally in the source text but
not in the translated text. -/
def validateBrandNames (config : ValidationConfig) (sourceUnit : SourceUnit)
    (result : TranslationResult) : List ValidationWarning :=
  let brandNames := config.brandNames.getD []
  (brandNames.filter (fun b =>
      strIncludes sourceUnit.sourceText b && ! strIncludes result.translatedText b)).map
    (fun b => { type := "MISSING_BRAND_NAME"
                message := "Brand name \"" ++ b ++ "\" not preserved in translation"
                field := some b })

/-- The single `EMPTY_TRANSLATION` error entry. -/
def emptyTranslationError : ValidationError :=
  { type := "EMPTY_TRANSLATION", message := "Translation is empty", field := none }

/-- The `SOURCE_LEAKAGE` error entry. -/
def sourceLeakageError : ValidationError :=
  { type := "SOURCE_LEAKAGE"
    message := "Translation appears to be in source language", field := none }

/-- `validate(result, sourceUnit)` (TranslationValidationPipeline.validate).
Stage 1 tests `!result.translatedText || result.translatedText.trim().length === 0`
(the empty string is falsy) and short-circuits with confidence 0.  Stages
2-5 run in order; each confidence multiplier is applied once when its stage
fired. -/
def validate (config : ValidationConfig) (result : TranslationResult)
    (sourceUnit : SourceUnit) : ValidationResult :=
  -- Stage 1: Structural validation
  if result.translatedText = "" ∨ (jsTrim result.translatedText).length = 0 then
    { isValid := false, errors := [emptyTranslationError], warnings := [], confidence := 0 }
  else
    -- Stage 2: Placeholder preservation
    let placeholderErrors :=
      if config.preservePlaceholders ≠ some false then
        validatePlaceholders sourceUnit result
      else []
    let confidence1 : Rat := if placeholderErrors.length > 0 then 1 * (1 / 2) else 1
    -- Stage 3: Semantic validation
    let semanticWarnings := validateSemantics config sourceUnit result
    let confidence2 := if semanticWarnings.length > 0 then confidence1 * (4 / 5) else confidence1
    -- Stage 4: Source leakage detection
    let leakageDetected :=
      config.preventSourceLeakage ≠ some false ∧ detectSourceLeakage sourceUnit result = true
    let errors2 :=
      if leakageDetected then placeholderErrors ++ [sourceLeakageError] else placeholderErrors
    let confidence3 := if leakageDetected then confidence2 * (3 / 10) else confidence2
    -- Stage 5: Brand name protection
    let brandWarnings :=
      match config.brandNames with
      | some l => if l.length > 0 then validateBrandNames config sourceUnit result else []
      | none => []
    { isValid := errors2.isEmpty
      errors := errors2
      warnings := semanticWarnings ++ brandWarnings
      confidence := confidence3 }

/-!
## Bulk import (spec §4.2)

`importExistingTranslation` and `bulkImportTranslations` are called by the
CLI import command and exercised by tests/ledger.prop.test.ts, but the
method bodies are not among the provided sources, so they are modelled from
the spec.
-/

/-- One record of a bulk import. -/
structure ImportRecord where
  keyPath : String
  langCode : String
  sourceHash : String
  targetHash : String
deriving DecidableEq, Repr

/-- The imported/skipped/errored counters returned by a bulk import.  The
`languages` and `duration` fields the CLI prints are presentation
bookkeeping (`duration` is real time) and are not modelled. -/
structure ImportStats where
  totalRecords : Nat
  imported : Nat
  skipped : Nat
  errors : Nat
deriving DecidableEq, Repr

/-- Modelled from the spec: the body of
`importExistingTranslation(keyPath, langCode, sourceHash, targetHash)` is
missing from the provided sources (only its tests and CLI caller appear).
Spec §4.2: it "marks the pair `CLEAN` directly (bypassing any provider
call) so that existing human/previously-generated translations are never
retranslated"; the ledger tests additionally observe that the source hash
becomes visible through `getSourceHash`, so both rows are written. -/
def importExistingTranslation (l : Ledger) (r : ImportRecord) : Ledger :=
  let l1 : Ledger :=
    { l with sourceHashes := fun k =>
        if k = r.keyPath then some r.sourceHash else l.sourceHashes k }
  updateSyncStatus l1 r.keyPath r.langCode r.targetHash .CLEAN none none

/-- Modelled from the spec: the body of `bulkImportTranslations(records)` is
missing from the provided sources (only its tests and CLI caller appear).
Spec §4.2: it "does the same for many records inside one transaction,
skipping records whose pair is already `CLEAN` and returning counts of
imported/skipped/errored".  The transaction wrapper is atomic by
construction in this pure state-passing model; storage failures (the only
source of errored records) are not modelled, so the errored count is 0. -/
def bulkImportStep (acc : Ledger × ImportStats) (r : ImportRecord) :
    Ledger × ImportStats :=
  match getSyncStatus acc.1 r.keyPath r.langCode with
  | some ss =>
      if ss.status = .CLEAN then
        (acc.1, { acc.2 with skipped := acc.2.skipped + 1 })
      else
        (importExistingTranslation acc.1 r,
         { acc.2 with imported := acc.2.imported + 1 })
  | none =>
      (importExistingTranslation acc.1 r,
       { acc.2 with imported := acc.2.imported + 1 })

/-- Modelled from the spec: `bulkImportTranslations(records)` (see
`bulkImportStep` for the per-record behaviour and provenance) folds the
records through the ledger inside one transaction, starting from zeroed
counters. -/
def bulkImportTranslations (l : Ledger) (records : List ImportRecord) :
    Ledger × ImportStats :=
  records.foldl bulkImportStep
    (l, { totalRecords := records.length, imported := 0, skipped := 0, errors := 0 })

/-!
## Concrete sample data, used by the witnesses
-/

/-- A sample source unit. -/
def sampleUnit : SourceUnit :=
  { unitId := "u1", keyPath := "app.title", sourceText := "Hello {name}"
    sourceHash := "hash1", context := none, placeholders := ["{name}"]
    sourceFile := "en.json", schemaVersion := 1 }

/-- A sample target language. -/
def sampleLang : TargetLanguage := { language := "French", shortCode := "fr" }

/-- A ledger with no rows at all. -/
def emptyLedger : Ledger :=
  { sourceHashes := fun _ => none, syncStatus := fun _ _ => none }

/-- A CLEAN sync-status row for (app.title, fr). -/
def cleanRow : SyncStatus :=
  { key_path := "app.title", lang_code := "fr", target_hash := "th1"
    status := .CLEAN, model_fingerprint := none, prompt_version := none }

/-- A ledger where `sampleUnit` is fully synced for `sampleLang`. -/
def cleanLedger : Ledger :=
  { sourceHashes := fun k => if k = "app.title" then some "hash1" else none
    syncStatus := fun k lc =>
      if k = "app.title" ∧ lc = "fr" then some cleanRow else none }

/-- A ledger with a CLEAN sync-status row for (app.title, fr) but no
source_hashes row at all. -/
def cleanNoHashLedger : Ledger :=
  { sourceHashes := fun _ => none
    syncStatus := fun k lc =>
      if k = "app.title" ∧ lc = "fr" then some cleanRow else none }

/-- A validation configuration with every knob left unset, except that
source-leakage detection is disabled so witnesses can be evaluated without
unfolding the leakage heuristic. -/
def sampleConfig : ValidationConfig :=
  { preservePlaceholders := none, maxLengthRatio := none
    preventSourceLeakage := some false, brandNames := none }

/-- A whitespace-only translation result. -/
def blankResult : TranslationResult :=
  { unitId := "u1", translatedText := "   ", confidence := none }

/-- A translation result that drops `{name}` and introduces `{nom}`. -/
def wrongPlaceholderResult : TranslationResult :=
  { unitId := "u1", translatedText := "Bonjour {nom}", confidence := none }

/-- One sample import record. -/
def sampleRecord : ImportRecord :=
  { keyPath := "app.title", langCode := "fr"
    sourceHash := "hash1", targetHash := "th1" }

/-!
## Helper lemmas: planner
-/

theorem string_eq_empty_of_length_eq_zero {s : String} (h : s.length = 0) : s = "" := by
  cases s with
  | mk data =>
    cases data with
    | nil => rfl
    | cons a l => simp [String.length] at h

/-- The inclusion test of the `detectChanges` loop, as a proposition. -/
theorem needsTranslation_eq_true_iff (L : Ledger) (lc : String) (u : SourceUnit) :
    needsTranslation L lc u = true ↔
      (getSyncStatus L u.keyPath lc = none ∨
       ∃ ss, getSyncStatus L u.keyPath lc = some ss ∧ ss.status ≠ .MANUAL ∧
         (getSourceHash L u.keyPath ≠ some u.sourceHash ∨
          ss.status = .FAILED ∨ ss.status = .DIRTY)) := by
  unfold needsTranslation
  cases h : getSyncStatus L u.keyPath lc with
  | none => simp
  | some ss =>
    by_cases hm : ss.status = SyncStatusType.MANUAL
    · simp [hm]
    · by_cases hc : getSourceHash L u.keyPath = some u.sourceHash <;> simp [hm, hc]

theorem mem_detectChanges {L : Ledger} {us : List SourceUnit} {lc : String}
    {u : SourceUnit} :
    u ∈ detectChanges L us lc ↔ u ∈ us ∧ needsTranslation L lc u = true :=
  List.mem_filter

theorem createBatchesAux_nil (hf : String → String) (lc : String) (bs fuel i : Nat) :
    createBatchesAux hf lc bs fuel i [] = [] := by
  cases fuel <;> rfl

theorem createBatchesAux_cons (hf : String → String) (lc : String)
    (bs fuel i : Nat) (x : SourceUnit) (xs : List SourceUnit) :
    createBatchesAux hf lc bs (fuel + 1) i (x :: xs) =
      { batchId := "batch_" ++ lc ++ "_" ++ toString i
        sourceUnits := (x :: xs).take bs
        targetLanguage := lc
        deduplicationKey :=
          hf (String.intercalate "_" (((x :: xs).take bs).map (·.sourceHash))) }
        :: createBatchesAux hf lc bs fuel (i + bs) ((x :: xs).drop bs) := rfl

/-- Concatenating the unit lists of the produced batches reconstructs the
input list, provided the batch size is positive and the fuel covers the
input (as it does at the call site, where the fuel is the input length). -/
theorem createBatchesAux_flatten (hf : String → String) (lc : String) (bs : Nat)
    (hbs : 0 < bs) :
    ∀ (fuel i : Nat) (l : List SourceUnit), l.length ≤ fuel →
      ((createBatchesAux hf lc bs fuel i l).map (·.sourceUnits)).flatten = l := by
  intro fuel
  induction fuel with
  | zero =>
    intro i l hl
    cases l with
    | nil => rfl
    | cons x xs => simp at hl
  | succ n ih =>
    intro i l hl
    cases l with
    | nil => rfl
    | cons x xs =>
      rw [createBatchesAux_cons, List.map_cons, List.flatten_cons, ih (i + bs)]
      · exact List.take_append_drop bs (x :: xs)
      · simp only [List.length_drop, List.length_cons] at *
        omega

/-- Every produced batch carries the target language, at most `bs` units,
and a deduplication key that is the hash of its members' source hashes. -/
theorem mem_createBatchesAux (hf : String → String) (lc : String) (bs : Nat) :
    ∀ (fuel i : Nat) (l : List SourceUnit) (b : TranslationBatch),
      b ∈ createBatchesAux hf lc bs fuel i l →
        b.targetLanguage = lc ∧ b.sourceUnits.length ≤ bs ∧
        b.deduplicationKey =
          hf (String.intercalate "_" (b.sourceUnits.map (·.sourceHash))) := by
  intro fuel
  induction fuel with
  | zero => intro i l b hb; simp [createBatchesAux] at hb
  | succ n ih =>
    intro i l b hb
    cases l with
    | nil => simp [createBatchesAux_nil] at hb
    | cons x xs =>
      rw [createBatchesAux_cons, List.mem_cons] at hb
      rcases hb with rfl | hb
      · refine ⟨rfl, ?_, rfl⟩
        simp [List.length_take]
      · exact ih (i + bs) _ b hb

/-- In the produced batch list, every batch but the last holds exactly `bs`
units. -/
theorem createBatchesAux_dropLast_length (hf : String → String) (lc : String)
    (bs : Nat) (hbs : 0 < bs) :
    ∀ (fuel i : Nat) (l : List SourceUnit), l.length ≤ fuel →
      ∀ b ∈ (createBatchesAux hf lc bs fuel i l).dropLast,
        b.sourceUnits.length = bs := by
  intro fuel
  induction fuel with
  | zero =>
    intro i l hl b hb
    cases l with
    | nil => simp [createBatchesAux] at hb
    | cons x xs => simp at hl
  | succ n ih =>
    intro i l hl b hb
    cases l with
    | nil => simp [createBatchesAux_nil] at hb
    | cons x xs =>
      rw [createBatchesAux_cons] at hb
      cases hdrop : (x :: xs).drop bs with
      | nil =>
        rw [hdrop, createBatchesAux_nil] at hb
        simp at hb
      | cons y ys =>
        have hlen : (x :: xs).length > bs := by
          have := List.length_drop bs (x :: xs)
          rw [hdrop] at this
          simp only [List.length_cons] at *
          omega
        have hfuel : (y :: ys).length ≤ n := by
          have := List.length_drop bs (x :: xs)
          rw [hdrop] at this
          simp only [List.length_cons] at *
          omega
        rw [hdrop] at hb
        obtain ⟨m, hm⟩ : ∃ m, n = m + 1 := by
          cases n with
          | zero => simp at hfuel
          | succ m => exact ⟨m, rfl⟩
        rw [hm, createBatchesAux_cons] at hb
        simp only [List.dropLast_cons₂, List.mem_cons] at hb
        rcases hb with rfl | hb
        · simp only [List.length_take]
          omega
        · have := ih (i + bs) (y :: ys) (by omega) b
          rw [hm, createBatchesAux_cons] at this
          exact this (by simpa using hb)

/-- The grouping of units into batches does not depend on the hash function
or on the running offset. -/
theorem createBatchesAux_map_sourceUnits (hf hf' : String → String) (lc : String)
    (bs : Nat) :
    ∀ (fuel i i' : Nat) (l : List SourceUnit),
      (createBatchesAux hf lc bs fuel i l).map (·.sourceUnits) =
      (createBatchesAux hf' lc bs fuel i' l).map (·.sourceUnits) := by
  intro fuel
  induction fuel with
  | zero => intro i i' l; rfl
  | succ n ih =>
    intro i i' l
    cases l with
    | nil => rfl
    | cons x xs =>
      rw [createBatchesAux_cons, createBatchesAux_cons, List.map_cons, List.map_cons,
        ih (i + bs) (i' + bs)]

/-- A unit occurs in some batch of `createBatches` exactly when it occurs in
the input list. -/
theorem mem_createBatches_iff (hf : String → String) (lc : String) (bs : Nat)
    (hbs : 0 < bs) (sel : List SourceUnit) (u : SourceUnit) :
    (∃ b ∈ createBatches hf sel lc bs, u ∈ b.sourceUnits) ↔ u ∈ sel := by
  have hflat := createBatchesAux_flatten hf lc bs hbs sel.length 0 sel le_rfl
  constructor
  · rintro ⟨b, hb, hu⟩
    rw [← hflat, List.mem_flatten]
    exact ⟨b.sourceUnits, List.mem_map.2 ⟨b, hb, rfl⟩, hu⟩
  · intro hu
    rw [← hflat, List.mem_flatten] at hu
    obtain ⟨m, hm, hum⟩ := hu
    obtain ⟨b, hb, rfl⟩ := List.mem_map.1 hm
    exact ⟨b, hb, hum⟩

/-- `createPlan` unfolded: its batch list is the per-language concatenation
of `createBatches` over `detectChanges`, and its unit total is the sum of
the per-language selected-unit counts. -/
theorem createPlan_eq (hf : String → String) (L : Ledger) (us : List SourceUnit)
    (langs : List TargetLanguage) :
    (createPlan hf L us langs).batches =
      langs.flatMap (fun lang =>
        createBatches hf (detectChanges L us lang.shortCode) lang.shortCode 20) ∧
    (createPlan hf L us langs).totalUnits =
      (langs.map (fun lang => (detectChanges L us lang.shortCode).length)).sum := by
  have key : ∀ (ls : List TargetLanguage) (acc : List TranslationBatch × Nat),
      ls.foldl (fun (acc : List TranslationBatch × Nat) lang =>
        let unitsNeedingTranslation := detectChanges L us lang.shortCode
        if unitsNeedingTranslation.isEmpty then acc
        else (acc.1 ++ createBatches hf unitsNeedingTranslation lang.shortCode 20,
              acc.2 + unitsNeedingTranslation.length)) acc =
      (acc.1 ++ ls.flatMap (fun lang =>
          createBatches hf (detectChanges L us lang.shortCode) lang.shortCode 20),
       acc.2 + (ls.map (fun lang => (detectChanges L us lang.shortCode).length)).sum) := by
    intro ls
    induction ls with
    | nil => intro acc; simp
    | cons lang rest ih =>
      intro acc
      rw [List.foldl_cons]
      by_cases h : (detectChanges L us lang.shortCode).isEmpty
      · have hnil : detectChanges L us lang.shortCode = [] := List.isEmpty_iff.1 h
        simp only [h, if_true, ih]
        rw [List.flatMap_cons, List.map_cons, List.sum_cons, hnil]
        simp [createBatches, createBatchesAux]
      · simp only [h, if_false, ih]
        rw [List.flatMap_cons, List.map_cons, List.sum_cons]
        simp [List.append_assoc, Nat.add_assoc]
  unfold createPlan
  rw [key]
  simp

/-- Membership of a `(unit, language-code)` pair in a plan, reduced to
`detectChanges`. -/
theorem planIncludes_createPlan_iff (hf : String → String) (L : Ledger)
    (us : List SourceUnit) (langs : List TargetLanguage) (u : SourceUnit)
    (lc : String) :
    planIncludes (createPlan hf L us langs) u lc ↔
      ∃ lang ∈ langs, lang.shortCode = lc ∧
        u ∈ detectChanges L us lang.shortCode := by
  unfold planIncludes
  rw [(createPlan_eq hf L us langs).1]
  constructor
  · rintro ⟨b, hb, hblang, hu⟩
    rw [List.mem_flatMap] at hb
    obtain ⟨lang, hlang, hbmem⟩ := hb
    have hprops := mem_createBatchesAux hf lang.shortCode 20 _ _ _ b hbmem
    refine ⟨lang, hlang, ?_, ?_⟩
    · rw [← hblang, hprops.1]
    · exact (mem_createBatches_iff hf lang.shortCode 20 (by omega) _ u).1 ⟨b, hbmem, hu⟩
  · rintro ⟨lang, hlang, rfl, hu⟩
    obtain ⟨b, hb, hub⟩ :=
      (mem_createBatches_iff hf lang.shortCode 20 (by omega) _ u).2 hu
    refine ⟨b, List.mem_flatMap.2 ⟨lang, hlang, hb⟩, ?_, hub⟩
    exact (mem_createBatchesAux hf lang.shortCode 20 _ _ _ b hb).1

/-!
## Claims C1, C2, C9, C10, C3: planner and manual-override detector
-/

/-- C1: for every source unit and target language, `createPlan` includes the
(unit, language) pair in the plan iff the ledger has no sync_status row for
the pair, or the stored status is not MANUAL and either the stored source
hash differs from the unit's current `sourceHash` or the stored status is
FAILED or DIRTY.  (So a MANUAL pair is never included, and a CLEAN pair with
matching hash is excluded.) -/
theorem createPlan_inclusion_iff (hf : String → String) (L : Ledger)
    (us : List SourceUnit) (langs : List TargetLanguage) (lang : TargetLanguage)
    (u : SourceUnit) (hlang : lang ∈ langs) (hu : u ∈ us) :
    planIncludes (createPlan hf L us langs) u lang.shortCode ↔
      (getSyncStatus L u.keyPath lang.shortCode = none ∨
       ∃ ss, getSyncStatus L u.keyPath lang.shortCode = some ss ∧
         ss.status ≠ .MANUAL ∧
         (getSourceHash L u.keyPath ≠ some u.sourceHash ∨
          ss.status = .FAILED ∨ ss.status = .DIRTY)) := by
  rw [planIncludes_createPlan_iff]
  constructor
  · rintro ⟨lang', hlang', heq, hmem⟩
    have h := (mem_detectChanges.1 hmem).2
    rw [heq] at h
    exact (needsTranslation_eq_true_iff L lang.shortCode u).1 h
  · intro h
    exact ⟨lang, hlang, rfl,
      mem_detectChanges.2 ⟨hu, (needsTranslation_eq_true_iff _ _ _).2 h⟩⟩

/-- Witness for C1: with an empty ledger (no sync_status row), the sample
unit is included for the sample language. -/
theorem createPlan_inclusion_iff_witness :
    planIncludes (createPlan id emptyLedger [sampleUnit] [sampleLang])
      sampleUnit sampleLang.shortCode :=
  (createPlan_inclusion_iff id emptyLedger [sampleUnit] [sampleLang] sampleLang
    sampleUnit (by simp) (by simp)).2 (Or.inl rfl)

/-- C2: re-sync is idempotent.  If every unit's stored source hash matches
its current hash and every (keyPath, langCode) pair in scope is CLEAN, the
plan has an empty batch list and `totalUnits = 0`. -/
theorem createPlan_idempotent (hf : String → String) (L : Ledger)
    (us : List SourceUnit) (langs : List TargetLanguage)
    (hsrc : ∀ u ∈ us, getSourceHash L u.keyPath = some u.sourceHash)
    (hclean : ∀ u ∈ us, ∀ lang ∈ langs, ∃ ss,
        getSyncStatus L u.keyPath lang.shortCode = some ss ∧ ss.status = .CLEAN) :
    (createPlan hf L us langs).batches = [] ∧
    (createPlan hf L us langs).totalUnits = 0 := by
  have hdet : ∀ lang ∈ langs, detectChanges L us lang.shortCode = [] := by
    intro lang hlang
    rw [detectChanges, List.filter_eq_nil_iff]
    intro u hu
    obtain ⟨ss, hss, hcl⟩ := hclean u hu lang hlang
    rw [needsTranslation_eq_true_iff]
    rintro (h | ⟨ss', hss', hman, hch | hfd | hdr⟩)
    · rw [hss] at h; cases h
    · rw [hss] at hss'
      injection hss' with hss'
      exact hch (hsrc u hu)
    · rw [hss] at hss'
      injection hss' with hss'
      rw [← hss', hcl] at hfd
      cases hfd
    · rw [hss] at hss'
      injection hss' with hss'
      rw [← hss', hcl] at hdr
      cases hdr
  obtain ⟨hb, ht⟩ := createPlan_eq hf L us langs
  constructor
  · rw [hb]
    apply List.flatMap_eq_nil_iff.2
    intro lang hlang
    rw [hdet lang hlang]
    rfl
  · rw [ht]
    apply List.sum_eq_zero
    intro n hn
    obtain ⟨lang, hlang, rfl⟩ := List.mem_map.1 hn
    rw [hdet lang hlang]
    rfl

/-- Witness for C2: the fully synced sample ledger produces the empty plan. -/
theorem createPlan_idempotent_witness :
    (createPlan id cleanLedger [sampleUnit] [sampleLang]).batches = [] ∧
    (createPlan id cleanLedger [sampleUnit] [sampleLang]).totalUnits = 0 :=
  createPlan_idempotent id cleanLedger [sampleUnit] [sampleLang]
    (by intro u hu; simp only [List.mem_singleton] at hu; subst hu; rfl)
    (by
      intro u hu lang hlang
      simp only [List.mem_singleton] at hu hlang
      subst hu; subst hlang
      exact ⟨cleanRow, rfl, rfl⟩)

/-- C9: the units selected for a language are grouped, in order, into
consecutive batches of 20: the batches' unit lists concatenate back to the
selected list, every batch except possibly the last holds exactly 20 units,
each batch carries the language and a `deduplicationKey` that is the hash of
the concatenation of its members' source hashes, and the grouping is
independent of the hash function (the key has no effect on
inclusion/exclusion). -/
theorem createBatches_spec (hf hf' : String → String) (L : Ledger)
    (us : List SourceUnit) (lc : String) :
    (((createBatches hf (detectChanges L us lc) lc 20).map
        (·.sourceUnits)).flatten = detectChanges L us lc) ∧
    (∀ b ∈ (createBatches hf (detectChanges L us lc) lc 20).dropLast,
        b.sourceUnits.length = 20) ∧
    (∀ b ∈ createBatches hf (detectChanges L us lc) lc 20,
        b.targetLanguage = lc ∧ b.sourceUnits.length ≤ 20 ∧
        b.deduplicationKey =
          hf (String.intercalate "_" (b.sourceUnits.map (·.sourceHash)))) ∧
    ((createBatches hf' (detectChanges L us lc) lc 20).map (·.sourceUnits) =
      (createBatches hf (detectChanges L us lc) lc 20).map (·.sourceUnits)) :=
  ⟨createBatchesAux_flatten hf lc 20 (by omega) _ 0 _ le_rfl,
   fun b hb => createBatchesAux_dropLast_length hf lc 20 (by omega) _ 0 _ le_rfl b hb,
   fun b hb => mem_createBatchesAux hf lc 20 _ 0 _ b hb,
   createBatchesAux_map_sourceUnits hf' hf lc 20 _ 0 0 _⟩

/-- Witness for C9: concrete instance; the sample unit under the empty
ledger is selected and lands in a single batch whose unit lists flatten back
to the selection. -/
theorem createBatches_spec_witness :
    ((createBatches id (detectChanges emptyLedger [sampleUnit] "fr") "fr" 20).map
        (·.sourceUnits)).flatten = detectChanges emptyLedger [sampleUnit] "fr" :=
  (createBatches_spec id id emptyLedger [sampleUnit] "fr").1

/-- C10: a (keyPath, langCode) pair whose stored status is CLEAN is still
included in the plan whenever the ledger has no source_hashes row for the
keyPath: `getSourceHash` returns absent, the comparison with the unit's
`sourceHash` registers as a change, and the unit is included despite its
CLEAN status. -/
theorem clean_missing_source_row_included (hf : String → String) (L : Ledger)
    (us : List SourceUnit) (langs : List TargetLanguage) (lang : TargetLanguage)
    (u : SourceUnit) (ss : SyncStatus) (hu : u ∈ us) (hlang : lang ∈ langs)
    (hrow : L.sourceHashes u.keyPath = none)
    (hss : getSyncStatus L u.keyPath lang.shortCode = some ss)
    (hclean : ss.status = .CLEAN) :
    getSourceHash L u.keyPath = none ∧
    planIncludes (createPlan hf L us langs) u lang.shortCode := by
  have hgsh : getSourceHash L u.keyPath = none := by
    unfold getSourceHash
    rw [hrow]
  refine ⟨hgsh, ?_⟩
  rw [planIncludes_createPlan_iff]
  refine ⟨lang, hlang, rfl, mem_detectChanges.2 ⟨hu, ?_⟩⟩
  rw [needsTranslation_eq_true_iff]
  right
  refine ⟨ss, hss, by rw [hclean]; simp, Or.inl (by rw [hgsh]; simp)⟩

/-- Witness for C10: the sample unit with a CLEAN row but no source-hash row
is included. -/
theorem clean_missing_source_row_included_witness :
    getSourceHash cleanNoHashLedger sampleUnit.keyPath = none ∧
    planIncludes (createPlan id cleanNoHashLedger [sampleUnit] [sampleLang])
      sampleUnit sampleLang.shortCode :=
  clean_missing_source_row_included id cleanNoHashLedger [sampleUnit] [sampleLang]
    sampleLang sampleUnit cleanRow (by simp) (by simp) rfl rfl rfl

/-- C3: `isManualOverride` returns true iff the stored status is MANUAL, or
is CLEAN with a stored target hash differing from the current hash (false
with no stored row or a matching CLEAN hash); after `markAsManualOverride`
it returns true for every hash; and `createPlan` never includes a pair while
its status is MANUAL — in particular right after `markAsManualOverride` —
regardless of source changes. -/
theorem manual_override_spec :
    (∀ (L : Ledger) (k lc h : String),
        isManualOverride L k lc h = true ↔
          ∃ ss, getSyncStatus L k lc = some ss ∧
            (ss.status = .MANUAL ∨
             (ss.status = .CLEAN ∧ ss.target_hash ≠ h))) ∧
    (∀ (L : Ledger) (k lc h h' : String),
        isManualOverride (markAsManualOverride L k lc h) k lc h' = true) ∧
    (∀ (hf : String → String) (L : Ledger) (us : List SourceUnit)
        (langs : List TargetLanguage) (u : SourceUnit) (lc : String) (ss : SyncStatus),
        getSyncStatus L u.keyPath lc = some ss → ss.status = .MANUAL →
          ¬ planIncludes (createPlan hf L us langs) u lc) ∧
    (∀ (hf : String → String) (L : Ledger) (us : List SourceUnit)
        (langs : List TargetLanguage) (u : SourceUnit) (lc h : String),
        ¬ planIncludes
            (createPlan hf (markAsManualOverride L u.keyPath lc h) us langs) u lc) := by
  have hmark : ∀ (L : Ledger) (k lc h : String),
      getSyncStatus (markAsManualOverride L k lc h) k lc =
        some { key_path := k, lang_code := lc, target_hash := h
               status := .MANUAL, model_fingerprint := none
               prompt_version := none } := by
    intro L k lc h
    simp [markAsManualOverride, updateSyncStatus, getSyncStatus]
  have hmanual : ∀ (hf : String → String) (L : Ledger) (us : List SourceUnit)
      (langs : List TargetLanguage) (u : SourceUnit) (lc : String) (ss : SyncStatus),
      getSyncStatus L u.keyPath lc = some ss → ss.status = .MANUAL →
        ¬ planIncludes (createPlan hf L us langs) u lc := by
    intro hf L us langs u lc ss hss hman hplan
    rw [planIncludes_createPlan_iff] at hplan
    obtain ⟨lang, _, heq, hmem⟩ := hplan
    have h := (mem_detectChanges.1 hmem).2
    rw [heq, needsTranslation_eq_true_iff] at h
    rcases h with h | ⟨ss', hss', hman', _⟩
    · rw [hss] at h; cases h
    · rw [hss] at hss'
      injection hss' with hss'
      rw [← hss', hman] at hman'
      exact hman' rfl
  refine ⟨?_, ?_, hmanual, ?_⟩
  · intro L k lc h
    unfold isManualOverride
    cases hs : getSyncStatus L k lc with
    | none => simp
    | some ss =>
      by_cases hm : ss.status = SyncStatusType.MANUAL
      · simp [hm]
      · by_cases hc : ss.status = SyncStatusType.CLEAN ∧ ss.target_hash ≠ h <;>
          simp [hm, hc]
  · intro L k lc h h'
    unfold isManualOverride
    rw [hmark]
    simp
  · intro hf L us langs u lc h
    exact hmanual hf _ us langs u lc _ (hmark L u.keyPath lc h) rfl

/-- Witness for C3: after marking the sample pair MANUAL, the detector
reports an override for a different hash and the planner excludes the pair. -/
theorem manual_override_spec_witness :
    isManualOverride (markAsManualOverride emptyLedger "app.title" "fr" "h0")
      "app.title" "fr" "h-other" = true ∧
    ¬ planIncludes
        (createPlan id (markAsManualOverride emptyLedger "app.title" "fr" "h0")
          [sampleUnit] [sampleLang]) sampleUnit "fr" :=
  ⟨manual_override_spec.2.1 emptyLedger "app.title" "fr" "h0" "h-other",
   manual_override_spec.2.2.2 id emptyLedger [sampleUnit] [sampleLang]
     sampleUnit "fr" "h0"⟩

/-!
## Helper lemmas: placeholder sets and the validation pipeline
-/

theorem mem_dedupFirst {a : String} : ∀ {l : List String}, a ∈ dedupFirst l ↔ a ∈ l := by
  intro l
  induction l with
  | nil => simp [dedupFirst]
  | cons x xs ih =>
    simp only [dedupFirst, List.mem_cons, List.mem_filter, ih]
    by_cases hax : a = x
    · simp [hax]
    · simp [hax]

theorem nodup_dedupFirst : ∀ (l : List String), (dedupFirst l).Nodup := by
  intro l
  induction l with
  | nil => exact List.nodup_nil
  | cons x xs ih =>
    rw [dedupFirst, List.nodup_cons]
    refine ⟨?_, ih.filter _⟩
    intro hmem
    have h := (List.mem_filter.1 hmem).2
    simp at h

theorem count_nodup_eq {α : Type} [DecidableEq α] {l : List α} (h : l.Nodup) (a : α) :
    l.count a = if a ∈ l then 1 else 0 := by
  split
  · exact List.count_eq_one_of_mem h ‹_›
  · exact List.count_eq_zero.2 ‹_›

/-- `lexLe` agrees with the library's lexicographic list order. -/
theorem lexLe_iff : ∀ (as bs : List Char), lexLe as bs = true ↔ ¬ bs.lt as := by
  intro as
  induction as with
  | nil =>
    intro bs
    simp only [lexLe]
    constructor
    · rintro - h
      cases h
    · intro _
      trivial
  | cons a as ih =>
    intro bs
    cases bs with
    | nil =>
      simp only [lexLe]
      constructor
      · intro h
        cases h
      · intro h
        exact absurd (List.lt.nil a as) h
    | cons b bs =>
      simp only [lexLe]
      by_cases hab : a < b
      · rw [if_pos hab]
        constructor
        · rintro - h
          cases h with
          | head _ _ hba => exact absurd hab (asymm hba)
          | tail h1 h2 h3 => exact h2 hab
        · intro _
          rfl
      · by_cases heq : a = b
        · subst heq
          rw [if_neg hab, if_pos rfl, ih bs]
          constructor
          · intro h hlt
            cases hlt with
            | head _ _ hba => exact hab hba
            | tail h1 h2 h3 => exact h h3
          · intro h hlt
            exact h (List.lt.tail hab hab hlt)
        · have hba : b < a := by
            rcases lt_trichotomy a b with h | h | h
            · exact absurd h hab
            · exact absurd h heq
            · exact h
          rw [if_neg hab, if_neg heq]
          constructor
          · intro h
            cases h
          · intro h
            exact absurd (List.lt.head bs as hba) h

/-- `strLe` agrees with the library order on `String`. -/
theorem strLe_iff (a b : String) : strLe a b = true ↔ a ≤ b := by
  rw [strLe, lexLe_iff]
  constructor
  · intro h hba
    exact h ((List.lt_iff_lex_lt _ _).2 (String.lt_iff_toList_lt.1 hba))
  · intro h hlt
    exact h (String.lt_iff_toList_lt.2 ((List.lt_iff_lex_lt _ _).1 hlt))

theorem nodup_extractPlaceholders (t : String) : (extractPlaceholders t).Nodup := by
  unfold extractPlaceholders
  exact ((List.perm_insertionSort _ _).nodup_iff).2 (nodup_dedupFirst _)

theorem sorted_extractPlaceholders (t : String) :
    (extractPlaceholders t).Pairwise (fun a b => a ≤ b) := by
  have htotal : IsTotal String (fun a b => strLe a b = true) := by
    constructor
    intro a b
    rcases le_total a b with h | h
    · exact Or.inl ((strLe_iff a b).2 h)
    · exact Or.inr ((strLe_iff b a).2 h)
  have htrans : IsTrans String (fun a b => strLe a b = true) := by
    constructor
    intro a b c hab hbc
    exact (strLe_iff a c).2 (le_trans ((strLe_iff a b).1 hab) ((strLe_iff b c).1 hbc))
  have h := @List.sorted_insertionSort String (fun a b => strLe a b = true) _
    htotal htrans
    (dedupFirst (scanPattern matchBraceAt t ++ scanPattern matchDoubleBraceAt t ++
      scanPattern matchPercentAt t ++ scanPattern matchDollarBraceAt t ++
      scanPattern matchDollarNumAt t))
  exact h.imp (fun hab => (strLe_iff _ _).1 hab)

theorem mem_extractPlaceholders (t p : String) :
    p ∈ extractPlaceholders t ↔
      (p ∈ scanPattern matchBraceAt t ∨ p ∈ scanPattern matchDoubleBraceAt t ∨
       p ∈ scanPattern matchPercentAt t ∨ p ∈ scanPattern matchDollarBraceAt t ∨
       p ∈ scanPattern matchDollarNumAt t) := by
  unfold extractPlaceholders
  rw [(List.perm_insertionSort _ _).mem_iff, mem_dedupFirst]
  simp [or_assoc]

theorem mkMissing_injective : Function.Injective mkMissingPlaceholderError := by
  intro a b hab
  have h := congrArg (fun e => e.field) hab
  simpa [mkMissingPlaceholderError] using h

theorem mkExtra_injective : Function.Injective mkExtraPlaceholderError := by
  intro a b hab
  have h := congrArg (fun e => e.field) hab
  simpa [mkExtraPlaceholderError] using h

/-- Each placeholder of the source set that is absent from the translation
contributes exactly one `MISSING_PLACEHOLDER` entry to
`validatePlaceholders`. -/
theorem count_missing_validatePlaceholders (u : SourceUnit) (r : TranslationResult)
    (p : String) :
    (validatePlaceholders u r).count (mkMissingPlaceholderError p) =
      if p ∈ u.placeholders ∧ p ∉ extractPlaceholders r.translatedText then 1
      else 0 := by
  unfold validatePlaceholders
  rw [List.count_append]
  have hextra : (((extractPlaceholders r.translatedText).filter
      (fun q => ! (dedupFirst u.placeholders).contains q)).map
        mkExtraPlaceholderError).count (mkMissingPlaceholderError p) = 0 := by
    rw [List.count_eq_zero]
    intro hmem
    obtain ⟨q, _, hq⟩ := List.mem_map.1 hmem
    have h := congrArg (fun e => e.type) hq
    simp [mkExtraPlaceholderError, mkMissingPlaceholderError] at h
  rw [hextra, Nat.add_zero, List.count_map_of_injective _ _ mkMissing_injective,
    count_nodup_eq ((nodup_dedupFirst _).filter _)]
  simp [List.mem_filter, mem_dedupFirst]

/-- Each placeholder extracted from the translation that is absent from the
source set contributes exactly one `EXTRA_PLACEHOLDER` entry to
`validatePlaceholders`. -/
theorem count_extra_validatePlaceholders (u : SourceUnit) (r : TranslationResult)
    (p : String) :
    (validatePlaceholders u r).count (mkExtraPlaceholderError p) =
      if p ∈ extractPlaceholders r.translatedText ∧ p ∉ u.placeholders then 1
      else 0 := by
  unfold validatePlaceholders
  rw [List.count_append]
  have hmissing : (((dedupFirst u.placeholders).filter
      (fun q => ! (extractPlaceholders r.translatedText).contains q)).map
        mkMissingPlaceholderError).count (mkExtraPlaceholderError p) = 0 := by
    rw [List.count_eq_zero]
    intro hmem
    obtain ⟨q, _, hq⟩ := List.mem_map.1 hmem
    have h := congrArg (fun e => e.type) hq
    simp [mkExtraPlaceholderError, mkMissingPlaceholderError] at h
  rw [hmissing, Nat.zero_add, List.count_map_of_injective _ _ mkExtra_injective,
    count_nodup_eq ((nodup_extractPlaceholders _).filter _)]
  simp [List.mem_filter, mem_dedupFirst]

/-- `validate` reports validity exactly as emptiness of its error list (in
the short-circuit branch both sides are false). -/
theorem validate_isValid_eq (config : ValidationConfig) (r : TranslationResult)
    (u : SourceUnit) :
    (validate config r u).isValid = (validate config r u).errors.isEmpty := by
  unfold validate
  split
  · rfl
  · rfl

/-- The error list of `validate` past the non-empty check: the placeholder
errors (when the stage is enabled) followed by the possible leakage error. -/
theorem validate_errors_of_nonempty (config : ValidationConfig)
    (r : TranslationResult) (u : SourceUnit)
    (h : ¬(r.translatedText = "" ∨ (jsTrim r.translatedText).length = 0)) :
    (validate config r u).errors =
      (if config.preservePlaceholders ≠ some false then validatePlaceholders u r
       else []) ++
      (if config.preventSourceLeakage ≠ some false ∧ detectSourceLeakage u r = true
       then [sourceLeakageError] else []) := by
  unfold validate
  rw [if_neg h]
  by_cases hleak :
      config.preventSourceLeakage ≠ some false ∧ detectSourceLeakage u r = true
  · simp [hleak]
  · simp [hleak]

/-- The confidence of `validate` past the non-empty check: the product of
the three stage multipliers, each applied once. -/
theorem validate_confidence_of_nonempty (config : ValidationConfig)
    (r : TranslationResult) (u : SourceUnit)
    (h : ¬(r.translatedText = "" ∨ (jsTrim r.translatedText).length = 0)) :
    (validate config r u).confidence =
      (if config.preservePlaceholders ≠ some false ∧ validatePlaceholders u r ≠ []
       then (1 : Rat) / 2 else 1) *
      ((if validateSemantics config u r ≠ [] then (4 : Rat) / 5 else 1) *
       (if config.preventSourceLeakage ≠ some false ∧ detectSourceLeakage u r = true
        then (3 : Rat) / 10 else 1)) := by
  unfold validate
  rw [if_neg h]
  by_cases hpp : config.preservePlaceholders ≠ some false <;>
    by_cases hph : validatePlaceholders u r = [] <;>
      by_cases hsem : validateSemantics config u r = [] <;>
        by_cases hleak :
          config.preventSourceLeakage ≠ some false ∧
            detectSourceLeakage u r = true <;>
          (simp [hpp, hph, hsem, hleak, List.length_pos]; try norm_num)

/-!
## Claims C5, C4, C8: validation pipeline
-/

/-- C5: an empty or whitespace-only translation makes `validate` return
exactly `isValid = false`, confidence 0, the single `EMPTY_TRANSLATION`
error and no warnings, short-circuiting every later stage. -/
theorem validate_empty_translation (config : ValidationConfig)
    (r : TranslationResult) (u : SourceUnit) (h : jsTrim r.translatedText = "") :
    validate config r u =
      { isValid := false, errors := [emptyTranslationError], warnings := []
        confidence := 0 } := by
  unfold validate
  rw [if_pos (Or.inr (by rw [h]; rfl))]

/-- Witness for C5: the whitespace-only sample result. -/
theorem validate_empty_translation_witness :
    validate sampleConfig blankResult sampleUnit =
      { isValid := false, errors := [emptyTranslationError], warnings := []
        confidence := 0 } :=
  validate_empty_translation sampleConfig blankResult sampleUnit (by decide)

/-- C4: with placeholder preservation enabled and a non-empty translation,
`validate` compares the extracted placeholder set of the translation with
the set recorded on the source unit as exact set equality: exactly one
`MISSING_PLACEHOLDER` error per source placeholder absent from the
extraction, exactly one `EXTRA_PLACEHOLDER` error per extracted placeholder
absent from the source set, any placeholder error invalidates the result,
and the ×0.5 confidence multiplier is applied exactly once, not per
error. -/
theorem placeholder_validation_spec (config : ValidationConfig)
    (r : TranslationResult) (u : SourceUnit)
    (henabled : config.preservePlaceholders ≠ some false)
    (hnonempty : jsTrim r.translatedText ≠ "") :
    (∀ p, (validate config r u).errors.count (mkMissingPlaceholderError p) =
        if p ∈ u.placeholders ∧ p ∉ extractPlaceholders r.translatedText then 1
        else 0) ∧
    (∀ p, (validate config r u).errors.count (mkExtraPlaceholderError p) =
        if p ∈ extractPlaceholders r.translatedText ∧ p ∉ u.placeholders then 1
        else 0) ∧
    (validatePlaceholders u r ≠ [] → (validate config r u).isValid = false) ∧
    (validatePlaceholders u r ≠ [] →
      (validate config r u).confidence =
        (1 / 2 : Rat) *
        ((if validateSemantics config u r ≠ [] then (4 : Rat) / 5 else 1) *
         (if config.preventSourceLeakage ≠ some false ∧
              detectSourceLeakage u r = true
          then (3 : Rat) / 10 else 1))) := by
  have hcond : ¬(r.translatedText = "" ∨ (jsTrim r.translatedText).length = 0) := by
    rintro (h1 | h2)
    · apply hnonempty
      rw [h1]
      rfl
    · exact hnonempty (string_eq_empty_of_length_eq_zero h2)
  have herr := validate_errors_of_nonempty config r u hcond
  refine ⟨?_, ?_, ?_, ?_⟩
  · intro p
    rw [herr, List.count_append, if_pos henabled]
    have hz : (if config.preventSourceLeakage ≠ some false ∧
          detectSourceLeakage u r = true then [sourceLeakageError]
        else []).count (mkMissingPlaceholderError p) = 0 := by
      split
      · simp [List.count_singleton, sourceLeakageError, mkMissingPlaceholderError]
      · rfl
    rw [hz, Nat.add_zero, count_missing_validatePlaceholders]
  · intro p
    rw [herr, List.count_append, if_pos henabled]
    have hz : (if config.preventSourceLeakage ≠ some false ∧
          detectSourceLeakage u r = true then [sourceLeakageError]
        else []).count (mkExtraPlaceholderError p) = 0 := by
      split
      · simp [List.count_singleton, sourceLeakageError, mkExtraPlaceholderError]
      · rfl
    rw [hz, Nat.add_zero, count_extra_validatePlaceholders]
  · intro hph
    rw [validate_isValid_eq, herr, if_pos henabled]
    rcases h' : validatePlaceholders u r with _ | ⟨e, es⟩
    · exact absurd h' hph
    · rfl
  · intro hph
    rw [validate_confidence_of_nonempty config r u hcond, if_pos ⟨henabled, hph⟩]

/-- Witness for C4: dropping `{name}` and introducing `{nom}` yields exactly
one missing-placeholder error and invalidates the result. -/
theorem placeholder_validation_spec_witness :
    (validate sampleConfig wrongPlaceholderResult sampleUnit).errors.count
        (mkMissingPlaceholderError "{name}") = 1 ∧
    (validate sampleConfig wrongPlaceholderResult sampleUnit).isValid = false := by
  have h := placeholder_validation_spec sampleConfig wrongPlaceholderResult
    sampleUnit (by decide) (by decide)
  exact ⟨(h.1 "{name}").trans (by decide), h.2.2.1 (by decide)⟩

/-- C8: `validate` is valid iff its error list is empty, and its confidence
lies in [0,1]: it is 0 for an empty translation and otherwise the product,
starting from 1.0, of the applicable multipliers (0.5 for a placeholder
error, 0.8 for a semantic warning, 0.3 for detected source leakage), each
applied at most once. -/
theorem validate_result_spec (config : ValidationConfig) (r : TranslationResult)
    (u : SourceUnit) :
    ((validate config r u).isValid = true ↔ (validate config r u).errors = []) ∧
    (0 ≤ (validate config r u).confidence ∧ (validate config r u).confidence ≤ 1) ∧
    ((r.translatedText = "" ∨ (jsTrim r.translatedText).length = 0) →
        (validate config r u).confidence = 0) ∧
    (¬(r.translatedText = "" ∨ (jsTrim r.translatedText).length = 0) →
        (validate config r u).confidence =
          (if config.preservePlaceholders ≠ some false ∧
               validatePlaceholders u r ≠ [] then (1 : Rat) / 2 else 1) *
          ((if validateSemantics config u r ≠ [] then (4 : Rat) / 5 else 1) *
           (if config.preventSourceLeakage ≠ some false ∧
                detectSourceLeakage u r = true then (3 : Rat) / 10 else 1))) := by
  refine ⟨?_, ?_, ?_, validate_confidence_of_nonempty config r u⟩
  · rw [validate_isValid_eq]
    exact List.isEmpty_iff
  · by_cases hcond : r.translatedText = "" ∨ (jsTrim r.translatedText).length = 0
    · have : (validate config r u).confidence = 0 := by
        unfold validate
        rw [if_pos hcond]
      rw [this]
      norm_num
    · rw [validate_confidence_of_nonempty config r u hcond]
      split <;> split <;> split <;> constructor <;> norm_num
  · intro hcond
    unfold validate
    rw [if_pos hcond]

/-- Witness for C8: at the whitespace-only sample result the empty-branch
hypothesis is discharged and the confidence is 0. -/
theorem validate_result_spec_witness :
    (validate sampleConfig blankResult sampleUnit).confidence = 0 :=
  (validate_result_spec sampleConfig blankResult sampleUnit).2.2.1
    (Or.inr (by decide))

/-!
## Claims C7 and C6: placeholder extraction and bulk import
-/

/-- C7: `extractPlaceholders` returns the duplicate-free, lexicographically
sorted list of the literal matched substrings of the five supported
placeholder patterns, as the set union over all pattern matches; the
concrete instance shows the five syntaxes, with the tolerated overlap
(`{{count}}` also contributing the `{`-pattern match `{{count}`, and
`${var}` also contributing `{var}`) and the matched substrings kept exactly
as they appear. -/
theorem extractPlaceholders_spec (t : String) :
    (extractPlaceholders t).Nodup ∧
    (extractPlaceholders t).Pairwise (fun a b => a ≤ b) ∧
    (∀ p, p ∈ extractPlaceholders t ↔
      (p ∈ scanPattern matchBraceAt t ∨ p ∈ scanPattern matchDoubleBraceAt t ∨
       p ∈ scanPattern matchPercentAt t ∨ p ∈ scanPattern matchDollarBraceAt t ∨
       p ∈ scanPattern matchDollarNumAt t)) ∧
    extractPlaceholders "Hello {name}, {{count}} ${var} %s and $1" =
      ["$1", "${var}", "%s", "\x7bname\x7d", "\x7bvar\x7d",
       "\x7b\x7bcount\x7d", "\x7b\x7bcount\x7d\x7d"] :=
  ⟨nodup_extractPlaceholders t, sorted_extractPlaceholders t,
   mem_extractPlaceholders t, by decide⟩

/-- The per-record fold of a bulk import never touches `totalRecords` or
`errors`, and adds each record to exactly one of imported/skipped. -/
theorem bulkImport_foldl_stats :
    ∀ (records : List ImportRecord) (L : Ledger) (st : ImportStats),
      (records.foldl bulkImportStep (L, st)).2.totalRecords = st.totalRecords ∧
      (records.foldl bulkImportStep (L, st)).2.errors = st.errors ∧
      (records.foldl bulkImportStep (L, st)).2.imported +
          (records.foldl bulkImportStep (L, st)).2.skipped =
        st.imported + st.skipped + records.length := by
  intro records
  induction records with
  | nil => intro L st; simp
  | cons r rs ih =>
    intro L st
    simp only [List.foldl_cons, List.length_cons]
    rcases h : getSyncStatus L r.keyPath r.langCode with _ | ss
    · have hs : bulkImportStep (L, st) r =
          (importExistingTranslation L r, { st with imported := st.imported + 1 }) := by
        simp [bulkImportStep, h]
      rw [hs]
      obtain ⟨h1, h2, h3⟩ := ih (importExistingTranslation L r)
        { st with imported := st.imported + 1 }
      exact ⟨h1, h2, by rw [h3]; dsimp only; omega⟩
    · by_cases hcl : ss.status = .CLEAN
      · have hs : bulkImportStep (L, st) r =
            (L, { st with skipped := st.skipped + 1 }) := by
          simp [bulkImportStep, h, hcl]
        rw [hs]
        obtain ⟨h1, h2, h3⟩ := ih L { st with skipped := st.skipped + 1 }
        exact ⟨h1, h2, by rw [h3]; dsimp only; omega⟩
      · have hs : bulkImportStep (L, st) r =
            (importExistingTranslation L r, { st with imported := st.imported + 1 }) := by
          simp [bulkImportStep, h, hcl]
        rw [hs]
        obtain ⟨h1, h2, h3⟩ := ih (importExistingTranslation L r)
          { st with imported := st.imported + 1 }
        exact ⟨h1, h2, by rw [h3]; dsimp only; omega⟩

/-- After importing one record its (keyPath, langCode) pair is CLEAN. -/
theorem clean_after_single_import (L : Ledger) (r : ImportRecord) :
    ∃ ss, getSyncStatus (bulkImportTranslations L [r]).1 r.keyPath r.langCode =
        some ss ∧ ss.status = .CLEAN := by
  have himport : ∀ (L' : Ledger),
      ∃ ss, getSyncStatus (importExistingTranslation L' r) r.keyPath r.langCode =
          some ss ∧ ss.status = .CLEAN := by
    intro L'
    refine ⟨{ key_path := r.keyPath, lang_code := r.langCode
              target_hash := r.targetHash, status := .CLEAN
              model_fingerprint := none, prompt_version := none }, ?_, rfl⟩
    simp [importExistingTranslation, updateSyncStatus, getSyncStatus]
  unfold bulkImportTranslations
  simp only [List.foldl_cons, List.foldl_nil, List.length_singleton]
  rcases h : getSyncStatus L r.keyPath r.langCode with _ | ss
  · have hs : bulkImportStep
        (L, { totalRecords := 1, imported := 0, skipped := 0, errors := 0 }) r =
        (importExistingTranslation L r,
         { totalRecords := 1, imported := 1, skipped := 0, errors := 0 }) := by
      simp [bulkImportStep, h]
    rw [hs]
    exact himport L
  · by_cases hcl : ss.status = .CLEAN
    · have hs : bulkImportStep
          (L, { totalRecords := 1, imported := 0, skipped := 0, errors := 0 }) r =
          (L, { totalRecords := 1, imported := 0, skipped := 1, errors := 0 }) := by
        simp [bulkImportStep, h, hcl]
      rw [hs]
      exact ⟨ss, h, hcl⟩
    · have hs : bulkImportStep
          (L, { totalRecords := 1, imported := 0, skipped := 0, errors := 0 }) r =
          (importExistingTranslation L r,
           { totalRecords := 1, imported := 1, skipped := 0, errors := 0 }) := by
        simp [bulkImportStep, h, hcl]
      rw [hs]
      exact himport L

/-- C6: a bulk import reports one count per record (errors 0, imported +
skipped = totalRecords = number of records), skips a record whose pair is
already CLEAN leaving the ledger untouched, and is idempotent: importing the
same record twice makes the second call report it as skipped (not duplicated
or errored) with the ledger — in particular the pair's row — unchanged. -/
theorem bulkImportTranslations_spec :
    (∀ (L : Ledger) (records : List ImportRecord),
        (bulkImportTranslations L records).2.totalRecords = records.length ∧
        (bulkImportTranslations L records).2.imported +
            (bulkImportTranslations L records).2.skipped = records.length ∧
        (bulkImportTranslations L records).2.errors = 0) ∧
    (∀ (L : Ledger) (r : ImportRecord) (ss : SyncStatus),
        getSyncStatus L r.keyPath r.langCode = some ss → ss.status = .CLEAN →
          bulkImportTranslations L [r] =
            (L, { totalRecords := 1, imported := 0, skipped := 1, errors := 0 })) ∧
    (∀ (L : Ledger) (r : ImportRecord),
        bulkImportTranslations (bulkImportTranslations L [r]).1 [r] =
          ((bulkImportTranslations L [r]).1,
           { totalRecords := 1, imported := 0, skipped := 1, errors := 0 })) := by
  have hskip : ∀ (L : Ledger) (r : ImportRecord) (ss : SyncStatus),
      getSyncStatus L r.keyPath r.langCode = some ss → ss.status = .CLEAN →
        bulkImportTranslations L [r] =
          (L, { totalRecords := 1, imported := 0, skipped := 1, errors := 0 }) := by
    intro L r ss hss hcl
    unfold bulkImportTranslations
    simp only [List.foldl_cons, List.foldl_nil, List.length_singleton]
    simp [bulkImportStep, hss, hcl]
  refine ⟨?_, hskip, ?_⟩
  · intro L records
    obtain ⟨h1, h2, h3⟩ := bulkImport_foldl_stats records L
      { totalRecords := records.length, imported := 0, skipped := 0, errors := 0 }
    exact ⟨h1, h3.trans (by simp), h2⟩
  · intro L r
    obtain ⟨ss, hss, hcl⟩ := clean_after_single_import L r
    exact hskip _ r ss hss hcl

/-- Witness for C6: re-importing the sample record into the already-clean
sample ledger reports it skipped and leaves the ledger value unchanged. -/
theorem bulkImportTranslations_spec_witness :
    bulkImportTranslations cleanLedger [sampleRecord] =
      (cleanLedger, { totalRecords := 1, imported := 0, skipped := 1, errors := 0 }) :=
  bulkImportTranslations_spec.2.1 cleanLedger sampleRecord cleanRow rfl rfl

end Translatron
